import Mathlib

set_option linter.unnecessarySeqFocus false

/- Verification of the flat-vector plan encoder and dataset assembler of the
trino cost-estimator repository.

The development shallowly embeds the JSON plan documents and the functions of
`flat_vector/training/generate_op_idx_dict.py` (vocabulary builder),
`flat_vector/training/extract_feature_flat.py` (flat-vector encoder and
multi-source dataset assembler) and the column-reconciliation step of
`flat_vector/model/flat_vector.py`.

JSON values produced by `json.load` are modelled by the inductive type `Json`.
Numbers are modelled by rationals (the concrete values of the claims are small
integers, for which Python float arithmetic is exact).  JSON `null` loads as
Python `None` and is modelled by `Json.null`.  Strings fed to `float(...)` are
treated as unparseable (the plan corpora store row counts as JSON numbers).
Operator-name fields are modelled as strings: in every plan dialect the value
of `name` / `plan_parameters.op_name` / `nodeType` / `Node Type` is a string,
so Python truthiness of such a field reduces to "non-empty string". -/

inductive Json where
  | null : Json
  | bool (b : Bool) : Json
  | num (q : ℚ) : Json
  | str (s : String) : Json
  | arr (elems : List Json) : Json
  | obj (fields : List (String × Json)) : Json

/-- `d.get(key)` on a JSON object, modelled on the association list of its
fields (a `dict` has unique keys; the first binding wins). -/
def lookupField : List (String × Json) → String → Option Json
  | [], _ => none
  | (k, v) :: rest, key => if k = key then some v else lookupField rest key

/-- `j.get(key)` where a non-`dict` receiver yields nothing (in Python this
raises `AttributeError`; the walkers only apply it to `dict` nodes). -/
def Json.getField : Json → String → Option Json
  | .obj fields, key => lookupField fields key
  | _, _ => none

/-- The elements iterated over when the value is a JSON list; non-list values
contribute no elements (the plan fields `children`, `Plans`, `estimates` and
`valid_queries` are lists whenever present). -/
def Json.arrElems : Json → List Json
  | .arr xs => xs
  | _ => []

/-- `Json.num` carries no size, so every constructor weighs at least 1. -/
theorem Json.one_le_sizeOf : ∀ j : Json, 1 ≤ sizeOf j
  | .null => le_refl 1
  | .bool _ => by simp
  | .num _ => by simp
  | .str _ => by simp
  | .arr _ => by simp
  | .obj _ => by simp

theorem lookupField_sizeOf {fields : List (String × Json)} {key : String}
    {v : Json} (h : lookupField fields key = some v) : sizeOf v < sizeOf fields := by
  induction fields with
  | nil => simp [lookupField] at h
  | cons kv rest ih =>
    obtain ⟨k, w⟩ := kv
    by_cases hk : k = key
    · simp only [lookupField, if_pos hk] at h
      cases h
      simp
      omega
    · simp only [lookupField, if_neg hk] at h
      have := ih h
      simp
      omega

theorem mem_arrElems_sizeOf {c v : Json} (h : c ∈ v.arrElems) :
    sizeOf c < sizeOf v := by
  cases v with
  | arr xs =>
    simp only [Json.arrElems] at h
    have := List.sizeOf_lt_of_mem h
    simp
    omega
  | null => simp [Json.arrElems] at h
  | bool b => simp [Json.arrElems] at h
  | num q => simp [Json.arrElems] at h
  | str s => simp [Json.arrElems] at h
  | obj fields => simp [Json.arrElems] at h

/- ----------------------------------------------------------------------
Vocabulary builder: `generate_op_idx_dict.py`
---------------------------------------------------------------------- -/

/-- Python truthiness of an operator-name field: `x or y` moves on when `x`
is `None` or an empty string.  Non-string operator values do not occur in the
plan dialects and are modelled as absent. -/
def strVal : Option Json → Option String
  | some (.str s) => if s = "" then none else some s
  | _ => none

/-- `node.get('plan_parameters', {}).get('op_name')`: when `plan_parameters`
is absent the inner lookup runs on the empty dict and yields `None`. -/
def ppOpName (fields : List (String × Json)) : Option Json :=
  match lookupField fields "plan_parameters" with
  | some (.obj pf) => lookupField pf "op_name"
  | _ => none

/-- The operator of one node in the vocabulary-building walk:
`node.get('name') or node.get('plan_parameters', {}).get('op_name') or
node.get('nodeType') or node.get('Node Type')`, followed by `if op:`. -/
def chainOp (fields : List (String × Json)) : Option String :=
  strVal (lookupField fields "name") <|>
  strVal (ppOpName fields) <|>
  strVal (lookupField fields "nodeType") <|>
  strVal (lookupField fields "Node Type")

/-- `node.keys() and all(isinstance(k, str) and k.isdigit() for k in node.keys())`:
a non-empty dict whose keys are all non-empty digit strings is a fragment
wrapper and is expanded value-wise. -/
def isDigitKeyWrapper (fields : List (String × Json)) : Bool :=
  !fields.isEmpty && fields.all (fun kv => !kv.1.isEmpty && kv.1.data.all Char.isDigit)

/-- Child discovery of the vocabulary-building walk:
`children = [] + node.get('children', []) + node.get('Plans', [])`, plus the
nested `plan` value when it is a dict or a list. -/
def vocabChildren (fields : List (String × Json)) : List Json :=
  ((lookupField fields "children").getD (.arr [])).arrElems
  ++ ((lookupField fields "Plans").getD (.arr [])).arrElems
  ++ (match lookupField fields "plan" with
      | some (.obj pf) => [Json.obj pf]
      | some (.arr xs) => [Json.arr xs]
      | _ => [])

theorem mem_vocabChildren_sizeOf {c : Json} {fields : List (String × Json)}
    (h : c ∈ vocabChildren fields) : sizeOf c < 1 + sizeOf fields := by
  simp only [vocabChildren, List.mem_append] at h
  rcases h with (h | h) | h
  · rcases hl : lookupField fields "children" with _ | v
    · rw [hl] at h; simp [Json.arrElems] at h
    · rw [hl] at h
      simp only [Option.getD_some] at h
      have h1 := mem_arrElems_sizeOf h
      have h2 := lookupField_sizeOf hl
      omega
  · rcases hl : lookupField fields "Plans" with _ | v
    · rw [hl] at h; simp [Json.arrElems] at h
    · rw [hl] at h
      simp only [Option.getD_some] at h
      have h1 := mem_arrElems_sizeOf h
      have h2 := lookupField_sizeOf hl
      omega
  · rcases hl : lookupField fields "plan" with _ | v
    · rw [hl] at h; simp at h
    · rw [hl] at h
      have h2 := lookupField_sizeOf hl
      cases v with
      | obj pf => simp at h; subst h; omega
      | arr xs => simp at h; subst h; omega
      | null => simp at h
      | bool b => simp at h
      | num q => simp at h
      | str s => simp at h

theorem mem_pair_snd_sizeOf {fields : List (String × Json)}
    {kv : String × Json} (h : kv ∈ fields) : sizeOf kv.2 < 1 + sizeOf fields := by
  have h1 := List.sizeOf_lt_of_mem h
  obtain ⟨k, v⟩ := kv
  simp at h1 ⊢
  omega

/-- `recurse(node, ops)` of `generate_op_idx_dict.py`, returning the set of
operator names the call adds to `ops`: digit-keyed fragment wrappers are
expanded value-wise, dict nodes contribute their chain operator (when any)
and recurse into their discovered children, lists recurse element-wise, and
every other value is ignored. -/
def vocabRecurse (j : Json) : Finset String :=
  match j with
  | .obj fields =>
    if isDigitKeyWrapper fields then
      (fields.attach.map (fun kv => vocabRecurse kv.1.2)).foldr (· ∪ ·) ∅
    else
      (match chainOp fields with
       | some s => {s}
       | none => ∅) ∪
      ((vocabChildren fields).attach.map (fun c => vocabRecurse c.1)).foldr (· ∪ ·) ∅
  | .arr xs => (xs.attach.map (fun x => vocabRecurse x.1)).foldr (· ∪ ·) ∅
  | _ => ∅
termination_by sizeOf j
decreasing_by
  · have := mem_pair_snd_sizeOf kv.2
    simp at this ⊢
    omega
  · have := mem_vocabChildren_sizeOf c.2
    simp at this ⊢
    omega
  · have := List.sizeOf_lt_of_mem x.2
    simp at this ⊢
    omega

/-- Folding set union over the recursive results of a list of values. -/
def unionList (l : List (Finset String)) : Finset String := l.foldr (· ∪ ·) ∅

theorem vocabRecurse_wrapper {fields : List (String × Json)}
    (h : isDigitKeyWrapper fields = true) :
    vocabRecurse (.obj fields) = unionList (fields.map (fun kv => vocabRecurse kv.2)) := by
  rw [vocabRecurse, if_pos h, unionList]
  congr 1
  exact List.attach_map_val fields (fun kv => vocabRecurse kv.2)

theorem vocabRecurse_obj {fields : List (String × Json)}
    (h : isDigitKeyWrapper fields = false) :
    vocabRecurse (.obj fields) =
      (match chainOp fields with
       | some s => {s}
       | none => ∅) ∪ unionList ((vocabChildren fields).map vocabRecurse) := by
  rw [vocabRecurse, if_neg (by simp [h]), unionList]
  congr 1
  exact congrArg (List.foldr (· ∪ ·) ∅)
    (List.attach_map_val (vocabChildren fields) vocabRecurse)

theorem vocabRecurse_arr (xs : List Json) :
    vocabRecurse (.arr xs) = unionList (xs.map vocabRecurse) := by
  rw [vocabRecurse, unionList]
  congr 1
  exact List.attach_map_val xs vocabRecurse

theorem vocabRecurse_leaf : vocabRecurse .null = ∅ ∧ (∀ b, vocabRecurse (.bool b) = ∅)
    ∧ (∀ q, vocabRecurse (.num q) = ∅) ∧ (∀ s, vocabRecurse (.str s) = ∅) := by
  refine ⟨?_, fun b => ?_, fun q => ?_, fun s => ?_⟩ <;> (rw [vocabRecurse] <;> simp)

/-- One file of the corpus as seen by `collect_ops_recursively`: its base name
and, when `json.load` succeeded, the parsed document (`none` models a file
whose parse failed: a warning is printed and the file is skipped). -/
structure PFile where
  fname : String
  content : Option Json

/-- `suffix.data.isSuffixOf s.data` models Python `s.endswith(suffix)`. -/
def endsWithStr (s suffix : String) : Bool := suffix.data.isSuffixOf s.data

/-- The operator names one parsed document adds to the collected set: a dict
with a `valid_queries` key is a bundle and only the `plan` of each entry is
walked (a JSON `null` plan loads as Python `None` and is skipped); every other
document is walked directly. -/
def fileOps (doc : Json) : Finset String :=
  match doc with
  | .obj fields =>
    match lookupField fields "valid_queries" with
    | some vq =>
      (vq.arrElems.map (fun entry =>
        match entry.getField "plan" with
        | some .null => ∅
        | some p => vocabRecurse p
        | none => ∅)).foldr (· ∪ ·) ∅
    | none => vocabRecurse (.obj fields)
  | _ => vocabRecurse doc

/-- `collect_ops_recursively`: each enumerated file contributes its operators
when its name carries the `.json` extension and it parsed; the result is the
union of all contributions (a set, in the source a mutated Python `set`). -/
def collect_ops_recursively (files : List PFile) : Finset String :=
  files.foldr (fun f acc =>
    (if endsWithStr f.fname ".json" then
      match f.content with
      | some doc => fileOps doc
      | none => ∅
     else ∅) ∪ acc) ∅

/-- `op_list = sorted(all_ops)` followed by
`op_idx_dict = {op: idx for idx, op in enumerate(op_list)}`. -/
def opIdxDict (ops : Finset String) : List (String × ℕ) :=
  (ops.sort (· ≤ ·)).enum.map (fun p => (p.2, p.1))

/-- The vocabulary produced by `main` of `generate_op_idx_dict.py` from a
corpus presented as a list of files. -/
def opIdxDictOfCorpus (files : List PFile) : List (String × ℕ) :=
  opIdxDict (collect_ops_recursively files)

theorem collect_ops_perm {files1 files2 : List PFile}
    (h : files1.Perm files2) :
    collect_ops_recursively files1 = collect_ops_recursively files2 := by
  unfold collect_ops_recursively
  induction h with
  | nil => rfl
  | cons x _ ih => simp only [List.foldr_cons, ih]
  | swap x y l =>
    simp only [List.foldr_cons]
    rw [← Finset.union_assoc, ← Finset.union_assoc, Finset.union_comm
      (if endsWithStr y.fname ".json" then _ else ∅)]
  | trans _ _ ih1 ih2 => rw [ih1, ih2]

/-- C1: the vocabulary builder sorts the collected operator set
lexicographically and numbers it `0..V-1`, so two presentations of the same
corpus files in different orders yield the identical operator→index mapping. -/
theorem vocab_index_order_invariant (files1 files2 : List PFile)
    (h : files1.Perm files2) :
    opIdxDictOfCorpus files1 = opIdxDictOfCorpus files2
    ∧ List.Sorted (· ≤ ·) ((opIdxDictOfCorpus files1).map Prod.fst)
    ∧ (opIdxDictOfCorpus files1).map Prod.snd =
        List.range (collect_ops_recursively files1).card := by
  refine ⟨congrArg opIdxDict (collect_ops_perm h), ?_, ?_⟩
  · unfold opIdxDictOfCorpus opIdxDict
    rw [List.map_map]
    have : (Prod.fst ∘ fun p : ℕ × String => (p.2, p.1)) = Prod.snd := rfl
    rw [this, List.enum_map_snd]
    exact Finset.sort_sorted _ _
  · unfold opIdxDictOfCorpus opIdxDict
    rw [List.map_map]
    have : (Prod.snd ∘ fun p : ℕ × String => (p.2, p.1)) = Prod.fst := rfl
    rw [this, List.enum_map_fst, Finset.length_sort]

def pfileA : PFile := ⟨"a.json", some (.obj [("name", .str "ScanA")])⟩

def pfileB : PFile := ⟨"b.json", some (.obj [("name", .str "ScanB")])⟩

theorem vocab_index_order_invariant_witness :
    ([pfileA, pfileB].Perm [pfileB, pfileA])
    ∧ (opIdxDictOfCorpus [pfileA, pfileB] = opIdxDictOfCorpus [pfileB, pfileA]
       ∧ List.Sorted (· ≤ ·) ((opIdxDictOfCorpus [pfileA, pfileB]).map Prod.fst)
       ∧ (opIdxDictOfCorpus [pfileA, pfileB]).map Prod.snd =
           List.range (collect_ops_recursively [pfileA, pfileB]).card) :=
  ⟨List.Perm.swap pfileB pfileA [],
   vocab_index_order_invariant _ _ (List.Perm.swap pfileB pfileA [])⟩

/- ----------------------------------------------------------------------
Flat-vector encoder: `extract_flat_vector` of `extract_feature_flat.py`
---------------------------------------------------------------------- -/

/-- `vec[idx] += x` on a NumPy vector: in-bounds update of one entry (the
loaded vocabulary maps into `[0, V)`, so the index is in bounds whenever the
vector has length `V`; NumPy raises on an out-of-bounds index, which the model
renders as a no-op that no claim exercises). -/
def bump (l : List ℚ) (i : ℕ) (x : ℚ) : List ℚ :=
  match l, i with
  | [], _ => []
  | y :: ys, 0 => (y + x) :: ys
  | y :: ys, n + 1 => y :: bump ys n x

/-- `float(v)` under the tolerant `try/except` of the encoder: JSON numbers
convert to themselves, booleans to 0/1, everything else (including `None`,
lists, dicts) raises and is treated as no contribution.  Numeric strings are
also modelled as unparseable: the plan corpora store row counts as JSON
numbers, never as strings. -/
def floatOfJson : Json → Option ℚ
  | .num q => some q
  | .bool b => some (if b then 1 else 0)
  | _ => none

/-- `op_idx_dict.get(op)`: the vocabulary is a string-keyed dict, so a
non-string key misses. -/
def dictGet (vocab : List (String × ℕ)) : Json → Option ℕ
  | .str s => lookupPairs vocab s
  | _ => none
where lookupPairs : List (String × ℕ) → String → Option ℕ
  | [], _ => none
  | (k, v) :: rest, key => if k = key then some v else lookupPairs rest key

/-- `float(est.get('outputRowCount', 0))` for one record of `estimates`: a
missing field defaults to `0`; a non-dict record raises inside the `try` and
contributes nothing. -/
def estContrib : Json → Option ℚ
  | .obj ef => floatOfJson ((lookupField ef "outputRowCount").getD (.num 0))
  | _ => none

/-- `node.get('children', [])` — the only child source of the encoding walk. -/
def childrenOf (fields : List (String × Json)) : List Json :=
  ((lookupField fields "children").getD (.arr [])).arrElems

/-- The encoder state: the occurrence-count vector `num_vec` and the
cardinality-sum vector `card_vec`. -/
structure EncSt where
  num : List ℚ
  card : List ℚ

/-- The contribution of one visited dict node to the two vectors:
`op = node.get('name', 'Unknown')`; when `op_idx_dict.get(op)` hits,
`num_vec[idx] += 1`, then the direct `outputRowCount` and every parseable
`estimates` record are added into `card_vec[idx]`. -/
def nodeContrib (vocab : List (String × ℕ)) (fields : List (String × Json))
    (st : EncSt) : EncSt :=
  match dictGet vocab ((lookupField fields "name").getD (.str "Unknown")) with
  | none => st
  | some idx =>
    let numv := bump st.num idx 1
    let card1 :=
      match lookupField fields "outputRowCount" with
      | some v =>
        match floatOfJson v with
        | some q => bump st.card idx q
        | none => st.card
      | none => st.card
    let card2 := (((lookupField fields "estimates").getD (.arr [])).arrElems).foldl
      (fun cv est =>
        match estContrib est with
        | some q => bump cv idx q
        | none => cv) card1
    ⟨numv, card2⟩

theorem childrenOf_sizeOf (fields : List (String × Json)) :
    sizeOf (childrenOf fields) < 1 + sizeOf fields := by
  unfold childrenOf
  rcases hl : lookupField fields "children" with _ | v
  · simp [Json.arrElems]
    have : (1 : ℕ) ≤ sizeOf fields := by
      cases fields <;> simp <;> omega
    omega
  · have h2 := lookupField_sizeOf hl
    simp only [Option.getD_some]
    cases v <;> simp [Json.arrElems] at h2 ⊢ <;> omega

mutual

/-- `recurse(node)` of `extract_flat_vector`: a dict node adds its own
contribution, then its `children` list is walked left to right.  Plan nodes
are dicts; on any other value Python would raise, which no plan exercises,
and the model leaves the state unchanged. -/
def encRecurse (vocab : List (String × ℕ)) : Json → EncSt → EncSt
  | .obj fields, st => encRecurseList vocab (childrenOf fields) (nodeContrib vocab fields st)
  | _, st => st
termination_by j _ => sizeOf j
decreasing_by
  have := childrenOf_sizeOf fields
  simp
  omega

/-- `for child in node.get('children', []): recurse(child)` — the state is
threaded through the children in order. -/
def encRecurseList (vocab : List (String × ℕ)) : List Json → EncSt → EncSt
  | [], st => st
  | c :: cs, st => encRecurseList vocab cs (encRecurse vocab c st)
termination_by l _ => sizeOf l
decreasing_by
  all_goals simp
  all_goals omega

end

/-- `for frag, root in plan_json.items()`: the fragment roots of a plan
document, in insertion order (`.items()` raises on a non-dict, which no
encoded plan exercises). -/
def fragRoots : Json → List Json
  | .obj fields => fields.map (fun kv => kv.2)
  | _ => []

/-- `extract_flat_vector(plan_json)`: both vectors start as `np.zeros(no_ops)`
with `no_ops = len(op_idx_dict)`, every fragment root is walked, and the
result is `np.concatenate([num_vec, card_vec])`. -/
def extract_flat_vector (vocab : List (String × ℕ)) (planJson : Json) : List ℚ :=
  let st := encRecurseList vocab (fragRoots planJson)
    ⟨List.replicate vocab.length 0, List.replicate vocab.length 0⟩
  st.num ++ st.card

theorem encRecurse_objEq (vocab : List (String × ℕ)) (fields : List (String × Json))
    (st : EncSt) :
    encRecurse vocab (.obj fields) st =
      encRecurseList vocab (childrenOf fields) (nodeContrib vocab fields st) := by
  rw [encRecurse]

def planC4 : Json :=
  .obj [("0", .obj [("name", .str "Output"), ("outputRowCount", .num 100),
    ("children", .arr [.obj [("name", .str "Filter"), ("outputRowCount", .num 40),
      ("estimates", .arr [.obj [("outputRowCount", .num 40)]]),
      ("children", .arr [])]])])]

/-- C4: the two-node plan `{"0": {name: Output, outputRowCount: 100, children:
[{name: Filter, outputRowCount: 40, estimates: [{outputRowCount: 40}],
children: []}]}}` encodes under `{Output: 0, Filter: 1}` to `counts = [1, 1]`
and `cardSums = [100, 80]`: a node's direct cardinality and each of its
auxiliary estimate records are summed into the same `cardSum` entry. -/
theorem encode_concrete_plan :
    extract_flat_vector [("Output", 0), ("Filter", 1)] planC4 = [1, 1, 100, 80] := by
  simp [planC4, extract_flat_vector, fragRoots, encRecurseList, encRecurse, nodeContrib,
    childrenOf, lookupField, dictGet, dictGet.lookupPairs, floatOfJson, estContrib,
    bump, Json.arrElems]
  norm_num

mutual

/-- The number of plan nodes the encoding walk visits below (and including)
one value: dict nodes count one each, other values none. -/
def countJ : Json → ℕ
  | .obj fields => 1 + countL (childrenOf fields)
  | _ => 0
termination_by j => sizeOf j
decreasing_by
  have := childrenOf_sizeOf fields
  simp
  omega

/-- Total node count of a list of sibling values. -/
def countL : List Json → ℕ
  | [] => 0
  | c :: cs => countJ c + countL cs
termination_by l => sizeOf l
decreasing_by
  all_goals simp
  all_goals omega

end

mutual

/-- Every node of the subtree resolves (via `node.get('name', 'Unknown')`) to
an operator present in the vocabulary, at an index below the vocabulary
size. -/
def okJ (vocab : List (String × ℕ)) : Json → Bool
  | .obj fields =>
    (match dictGet vocab ((lookupField fields "name").getD (.str "Unknown")) with
     | some i => decide (i < vocab.length)
     | none => false) && okL vocab (childrenOf fields)
  | _ => true
termination_by j => sizeOf j
decreasing_by
  have := childrenOf_sizeOf fields
  simp
  omega

/-- `okJ` over a list of sibling values. -/
def okL (vocab : List (String × ℕ)) : List Json → Bool
  | [] => true
  | c :: cs => okJ vocab c && okL vocab cs
termination_by l => sizeOf l
decreasing_by
  all_goals simp
  all_goals omega

end

theorem bump_length (l : List ℚ) (i : ℕ) (x : ℚ) : (bump l i x).length = l.length := by
  induction l generalizing i with
  | nil => rfl
  | cons y ys ih =>
    cases i with
    | zero => rfl
    | succ n => simp [bump, ih]

theorem bump_sum {l : List ℚ} {i : ℕ} (h : i < l.length) (x : ℚ) :
    (bump l i x).sum = l.sum + x := by
  induction l generalizing i with
  | nil => simp at h
  | cons y ys ih =>
    cases i with
    | zero => simp [bump]; ring
    | succ n =>
      simp only [bump, List.sum_cons]
      rw [ih (by simpa using h)]
      ring

theorem foldl_estimates_length (ests : List Json) (idx : ℕ) (cv : List ℚ) :
    (ests.foldl (fun cv est =>
      match estContrib est with
      | some q => bump cv idx q
      | none => cv) cv).length = cv.length := by
  induction ests generalizing cv with
  | nil => rfl
  | cons e es ih =>
    simp only [List.foldl_cons]
    rw [ih]
    cases estContrib e <;> simp [bump_length]

theorem nodeContrib_num_length (vocab : List (String × ℕ))
    (fields : List (String × Json)) (st : EncSt) :
    (nodeContrib vocab fields st).num.length = st.num.length := by
  unfold nodeContrib
  cases dictGet vocab ((lookupField fields "name").getD (.str "Unknown")) <;>
    simp [bump_length]

theorem nodeContrib_card_length (vocab : List (String × ℕ))
    (fields : List (String × Json)) (st : EncSt) :
    (nodeContrib vocab fields st).card.length = st.card.length := by
  unfold nodeContrib
  rcases dictGet vocab ((lookupField fields "name").getD (.str "Unknown")) with _ | idx
  · rfl
  · simp only
    rw [foldl_estimates_length]
    rcases lookupField fields "outputRowCount" with _ | v
    · rfl
    · rcases hf : floatOfJson v with _ | q <;> simp [hf, bump_length]

theorem nodeContrib_num_sum {vocab : List (String × ℕ)}
    {fields : List (String × Json)} {st : EncSt} {i : ℕ}
    (hidx : dictGet vocab ((lookupField fields "name").getD (.str "Unknown")) = some i)
    (hlt : i < st.num.length) :
    (nodeContrib vocab fields st).num.sum = st.num.sum + 1 := by
  unfold nodeContrib
  rw [hidx]
  simp only
  exact bump_sum hlt 1

theorem nodeContrib_num_none {vocab : List (String × ℕ)}
    {fields : List (String × Json)} (st : EncSt)
    (hidx : dictGet vocab ((lookupField fields "name").getD (.str "Unknown")) = none) :
    nodeContrib vocab fields st = st := by
  unfold nodeContrib
  rw [hidx]

theorem enc_main (n : ℕ) :
    (∀ (vocab : List (String × ℕ)) (j : Json) (st : EncSt), sizeOf j ≤ n →
       (encRecurse vocab j st).num.length = st.num.length
       ∧ (encRecurse vocab j st).card.length = st.card.length
       ∧ (okJ vocab j = true → st.num.length = vocab.length →
            (encRecurse vocab j st).num.sum = st.num.sum + countJ j))
    ∧ (∀ (vocab : List (String × ℕ)) (l : List Json) (st : EncSt), sizeOf l ≤ n →
       (encRecurseList vocab l st).num.length = st.num.length
       ∧ (encRecurseList vocab l st).card.length = st.card.length
       ∧ (okL vocab l = true → st.num.length = vocab.length →
            (encRecurseList vocab l st).num.sum = st.num.sum + countL l)) := by
  induction n using Nat.strong_induction_on with
  | _ n ih =>
    constructor
    · intro vocab j st hsz
      cases j with
      | obj fields =>
        rw [encRecurse_objEq]
        have hlt : sizeOf (childrenOf fields) < sizeOf (Json.obj fields) := by
          have := childrenOf_sizeOf fields
          simp
          omega
        have hch := (ih (sizeOf (childrenOf fields)) (by omega)).2 vocab
          (childrenOf fields) (nodeContrib vocab fields st) (le_refl _)
        refine ⟨hch.1.trans (nodeContrib_num_length vocab fields st),
          hch.2.1.trans (nodeContrib_card_length vocab fields st), ?_⟩
        intro hok hlen
        rw [okJ] at hok
        rcases hidx : dictGet vocab ((lookupField fields "name").getD (.str "Unknown"))
          with _ | i
        · rw [hidx] at hok
          simp at hok
        · rw [hidx] at hok
          simp only [Bool.and_eq_true, decide_eq_true_eq] at hok
          have hsum := hch.2.2 hok.2
            ((nodeContrib_num_length vocab fields st).trans hlen)
          rw [hsum, nodeContrib_num_sum hidx (by omega), countJ]
          push_cast
          ring
      | arr xs =>
        have he : encRecurse vocab (.arr xs) st = st := by rw [encRecurse] <;> simp
        have hc : countJ (.arr xs) = 0 := by rw [countJ] <;> simp
        rw [he, hc]
        exact ⟨rfl, rfl, fun _ _ => by simp⟩
      | null =>
        have he : encRecurse vocab .null st = st := by rw [encRecurse] <;> simp
        have hc : countJ .null = 0 := by rw [countJ] <;> simp
        rw [he, hc]
        exact ⟨rfl, rfl, fun _ _ => by simp⟩
      | bool b =>
        have he : encRecurse vocab (.bool b) st = st := by rw [encRecurse] <;> simp
        have hc : countJ (.bool b) = 0 := by rw [countJ] <;> simp
        rw [he, hc]
        exact ⟨rfl, rfl, fun _ _ => by simp⟩
      | num q =>
        have he : encRecurse vocab (.num q) st = st := by rw [encRecurse] <;> simp
        have hc : countJ (.num q) = 0 := by rw [countJ] <;> simp
        rw [he, hc]
        exact ⟨rfl, rfl, fun _ _ => by simp⟩
      | str s =>
        have he : encRecurse vocab (.str s) st = st := by rw [encRecurse] <;> simp
        have hc : countJ (.str s) = 0 := by rw [countJ] <;> simp
        rw [he, hc]
        exact ⟨rfl, rfl, fun _ _ => by simp⟩
    · intro vocab l st hsz
      cases l with
      | nil =>
        rw [encRecurseList, countL]
        exact ⟨rfl, rfl, fun _ _ => by simp⟩
      | cons c cs =>
        rw [encRecurseList, countL]
        have hszc : sizeOf c < n := by
          have : sizeOf c < sizeOf (c :: cs) := by
            simp only [List.cons.sizeOf_spec]
            omega
          omega
        have hszcs : sizeOf cs < n := by
          have : sizeOf cs < sizeOf (c :: cs) := by
            simp only [List.cons.sizeOf_spec]
            omega
          omega
        have hc := (ih (sizeOf c) hszc).1 vocab c st (le_refl _)
        have hcs := (ih (sizeOf cs) hszcs).2 vocab cs (encRecurse vocab c st) (le_refl _)
        refine ⟨hcs.1.trans hc.1, hcs.2.1.trans hc.2.1, ?_⟩
        intro hok hlen
        rw [okL] at hok
        simp only [Bool.and_eq_true] at hok
        rw [hcs.2.2 hok.2 (hc.1.trans hlen), hc.2.2 hok.1 hlen]
        push_cast
        ring

/-- C5: when every node of every fragment resolves to a vocabulary operator,
the first V entries of the encoded vector sum to the total node count N. -/
theorem counts_sum_eq_node_count (vocab : List (String × ℕ)) (planJson : Json)
    (h : okL vocab (fragRoots planJson) = true) :
    ((extract_flat_vector vocab planJson).take vocab.length).sum =
      (countL (fragRoots planJson) : ℚ) := by
  unfold extract_flat_vector
  have hmain := (enc_main (sizeOf (fragRoots planJson))).2 vocab (fragRoots planJson)
    ⟨List.replicate vocab.length 0, List.replicate vocab.length 0⟩ (le_refl _)
  have hlen : (encRecurseList vocab (fragRoots planJson)
      ⟨List.replicate vocab.length 0, List.replicate vocab.length 0⟩).num.length
      = vocab.length := by
    rw [hmain.1]
    exact List.length_replicate _ _
  simp only
  rw [List.take_left' hlen, hmain.2.2 h (by simp)]
  simp

def planC5 : Json :=
  .obj [("0", .obj [("name", .str "Output"),
    ("children", .arr [.obj [("name", .str "Filter"), ("children", .arr [])]])])]

def vocabC5 : List (String × ℕ) := [("Output", 0), ("Filter", 1)]

theorem counts_sum_eq_node_count_witness :
    okL vocabC5 (fragRoots planC5) = true
    ∧ ((extract_flat_vector vocabC5 planC5).take vocabC5.length).sum =
        (countL (fragRoots planC5) : ℚ) :=
  ⟨by simp [planC5, vocabC5, fragRoots, okL, okJ, childrenOf, lookupField, dictGet,
      dictGet.lookupPairs, Json.arrElems],
   counts_sum_eq_node_count vocabC5 planC5
     (by simp [planC5, vocabC5, fragRoots, okL, okJ, childrenOf, lookupField, dictGet,
       dictGet.lookupPairs, Json.arrElems])⟩

theorem lookupField_cons_ne (k key : String) (v : Json)
    (fields : List (String × Json)) (h : k ≠ key) :
    lookupField ((k, v) :: fields) key = lookupField fields key := by
  simp [lookupField, if_neg h]

/-- The encoding walk reads only `name`, `outputRowCount`, `estimates` and
`children`: prepending a binding for any other key leaves the encoding of the
node unchanged. -/
theorem encRecurse_ignores_field (vocab : List (String × ℕ)) (k : String)
    (v : Json) (fields : List (String × Json)) (st : EncSt)
    (h1 : k ≠ "name") (h2 : k ≠ "outputRowCount") (h3 : k ≠ "estimates")
    (h4 : k ≠ "children") :
    encRecurse vocab (.obj ((k, v) :: fields)) st = encRecurse vocab (.obj fields) st := by
  rw [encRecurse_objEq, encRecurse_objEq]
  have hch : childrenOf ((k, v) :: fields) = childrenOf fields := by
    unfold childrenOf
    rw [lookupField_cons_ne k "children" v fields h4]
  have hnc : nodeContrib vocab ((k, v) :: fields) st = nodeContrib vocab fields st := by
    unfold nodeContrib
    rw [lookupField_cons_ne k "name" v fields h1,
      lookupField_cons_ne k "outputRowCount" v fields h2,
      lookupField_cons_ne k "estimates" v fields h3]
  rw [hch, hnc]

/-- C8: a node whose operator identifier is absent from the vocabulary
contributes nothing — the walk proceeds directly to its children — and the
encoding never raises: the result of any encode still has length exactly
`2 * V`. -/
theorem unknown_op_excluded (vocab : List (String × ℕ)) (planJson : Json)
    (fields : List (String × Json)) (st : EncSt)
    (h : dictGet vocab ((lookupField fields "name").getD (.str "Unknown")) = none) :
    encRecurse vocab (.obj fields) st = encRecurseList vocab (childrenOf fields) st
    ∧ (extract_flat_vector vocab planJson).length = 2 * vocab.length := by
  constructor
  · rw [encRecurse_objEq, nodeContrib_num_none st h]
  · unfold extract_flat_vector
    have hmain := (enc_main (sizeOf (fragRoots planJson))).2 vocab (fragRoots planJson)
      ⟨List.replicate vocab.length 0, List.replicate vocab.length 0⟩ (le_refl _)
    simp only [List.length_append]
    rw [hmain.1, hmain.2.1]
    simp
    ring

def planC8 : Json :=
  .obj [("0", .obj [("name", .str "Output"), ("outputRowCount", .num 10),
    ("children", .arr [.obj [("name", .str "Foo"), ("outputRowCount", .num 7),
      ("children", .arr [])]])])]

theorem unknown_op_excluded_witness :
    dictGet [("Output", 0)]
      ((lookupField [("name", Json.str "Foo"), ("outputRowCount", Json.num 7),
        ("children", Json.arr [])] "name").getD (.str "Unknown")) = none
    ∧ (encRecurse [("Output", 0)]
        (.obj [("name", Json.str "Foo"), ("outputRowCount", Json.num 7),
          ("children", Json.arr [])]) ⟨[0], [0]⟩ =
        encRecurseList [("Output", 0)]
          (childrenOf [("name", Json.str "Foo"), ("outputRowCount", Json.num 7),
            ("children", Json.arr [])]) ⟨[0], [0]⟩
       ∧ (extract_flat_vector [("Output", 0)] planC8).length = 2 * 1) :=
  ⟨by simp [lookupField, dictGet, dictGet.lookupPairs],
   unknown_op_excluded [("Output", 0)] planC8 _ _
     (by simp [lookupField, dictGet, dictGet.lookupPairs])⟩

/-- C10: a visited node lacking a `name` field is encoded exactly as if it
carried the literal name `Unknown`: it contributes a count (at the index of
`Unknown`) precisely when `Unknown` is a vocabulary key, and otherwise the
walk passes straight to its children. -/
theorem missing_name_is_unknown (vocab : List (String × ℕ))
    (fields : List (String × Json)) (st : EncSt)
    (hname : lookupField fields "name" = none) :
    encRecurse vocab (.obj fields) st =
      encRecurse vocab (.obj (("name", Json.str "Unknown") :: fields)) st
    ∧ (dictGet vocab (.str "Unknown") = none →
        encRecurse vocab (.obj fields) st = encRecurseList vocab (childrenOf fields) st)
    ∧ (∀ i, dictGet vocab (.str "Unknown") = some i →
        (nodeContrib vocab fields st).num = bump st.num i 1) := by
  have hop : (lookupField fields "name").getD (.str "Unknown") = .str "Unknown" := by
    rw [hname]
    rfl
  refine ⟨?_, ?_, ?_⟩
  · rw [encRecurse_objEq, encRecurse_objEq]
    have hch : childrenOf (("name", Json.str "Unknown") :: fields) = childrenOf fields := by
      unfold childrenOf
      rw [lookupField_cons_ne "name" "children" _ fields (by decide)]
    have hnc : nodeContrib vocab (("name", Json.str "Unknown") :: fields) st =
        nodeContrib vocab fields st := by
      unfold nodeContrib
      rw [lookupField_cons_ne "name" "outputRowCount" _ fields (by decide),
        lookupField_cons_ne "name" "estimates" _ fields (by decide), hop]
      simp [lookupField]
    rw [hch, hnc]
  · intro hmiss
    rw [encRecurse_objEq, nodeContrib_num_none st (by rw [hop]; exact hmiss)]
  · intro i hi
    unfold nodeContrib
    rw [hop, hi]

theorem missing_name_is_unknown_witness :
    lookupField [("children", Json.arr [])] "name" = none
    ∧ (encRecurse [("Unknown", 0)] (.obj [("children", Json.arr [])]) ⟨[0], [0]⟩ =
        encRecurse [("Unknown", 0)]
          (.obj [("name", Json.str "Unknown"), ("children", Json.arr [])]) ⟨[0], [0]⟩
       ∧ (dictGet [("Unknown", 0)] (.str "Unknown") = none →
           encRecurse [("Unknown", 0)] (.obj [("children", Json.arr [])]) ⟨[0], [0]⟩ =
             encRecurseList [("Unknown", 0)] (childrenOf [("children", Json.arr [])])
               ⟨[0], [0]⟩)
       ∧ (∀ i, dictGet [("Unknown", 0)] (.str "Unknown") = some i →
           (nodeContrib [("Unknown", 0)] [("children", Json.arr [])] ⟨[0], [0]⟩).num =
             bump [0] i 1)) :=
  ⟨by simp [lookupField],
   missing_name_is_unknown [("Unknown", 0)] [("children", Json.arr [])] ⟨[0], [0]⟩
     (by simp [lookupField])⟩

/- ----------------------------------------------------------------------
Operator resolution and child discovery: the two walks compared
---------------------------------------------------------------------- -/

/-- The priority chain as the specification words it: the direct name field,
then the nested operator-name field, then the alternate engine-specific
fields, each tried until one yields a non-empty value. -/
def specPriorityOp (fields : List (String × Json)) : Option String :=
  [strVal (lookupField fields "name"),
   strVal (ppOpName fields),
   strVal (lookupField fields "nodeType"),
   strVal (lookupField fields "Node Type")].findSome? (fun x => x)

/-- C2 (amended): the fixed priority chain — `name`, then
`plan_parameters.op_name`, then `nodeType`, then `Node Type`, each tried
until one yields a non-empty value — governs the vocabulary-building walk,
whose anonymous nodes contribute no name while their children are still
visited; the encoding walk does not apply the chain: it ignores the
alternate engine-specific fields entirely. -/
theorem op_resolution_chain (vocab : List (String × ℕ))
    (fields : List (String × Json)) (v : Json) (st : EncSt)
    (hw : isDigitKeyWrapper fields = false) :
    chainOp fields = specPriorityOp fields
    ∧ (∀ s, chainOp fields = some s →
        vocabRecurse (.obj fields) =
          {s} ∪ unionList ((vocabChildren fields).map vocabRecurse))
    ∧ (chainOp fields = none →
        vocabRecurse (.obj fields) = unionList ((vocabChildren fields).map vocabRecurse))
    ∧ encRecurse vocab (.obj (("nodeType", v) :: fields)) st =
        encRecurse vocab (.obj fields) st
    ∧ encRecurse vocab (.obj (("Node Type", v) :: fields)) st =
        encRecurse vocab (.obj fields) st
    ∧ encRecurse vocab (.obj (("plan_parameters", v) :: fields)) st =
        encRecurse vocab (.obj fields) st := by
  refine ⟨?_, ?_, ?_, ?_, ?_, ?_⟩
  · unfold chainOp specPriorityOp
    rcases strVal (lookupField fields "name") with _ | s1 <;>
      rcases strVal (ppOpName fields) with _ | s2 <;>
        rcases strVal (lookupField fields "nodeType") with _ | s3 <;>
          rcases strVal (lookupField fields "Node Type") with _ | s4 <;>
            simp [List.findSome?]
  · intro s hs
    rw [vocabRecurse_obj hw, hs]
  · intro hnone
    rw [vocabRecurse_obj hw, hnone]
    simp
  · exact encRecurse_ignores_field vocab _ v fields st
      (by decide) (by decide) (by decide) (by decide)
  · exact encRecurse_ignores_field vocab _ v fields st
      (by decide) (by decide) (by decide) (by decide)
  · exact encRecurse_ignores_field vocab _ v fields st
      (by decide) (by decide) (by decide) (by decide)

theorem op_resolution_chain_witness :
    isDigitKeyWrapper [("nodeType", Json.str "Scan")] = false
    ∧ (chainOp [("nodeType", Json.str "Scan")] =
        specPriorityOp [("nodeType", Json.str "Scan")]
       ∧ (∀ s, chainOp [("nodeType", Json.str "Scan")] = some s →
           vocabRecurse (.obj [("nodeType", Json.str "Scan")]) =
             {s} ∪ unionList ((vocabChildren [("nodeType", Json.str "Scan")]).map
               vocabRecurse))
       ∧ (chainOp [("nodeType", Json.str "Scan")] = none →
           vocabRecurse (.obj [("nodeType", Json.str "Scan")]) =
             unionList ((vocabChildren [("nodeType", Json.str "Scan")]).map vocabRecurse))
       ∧ encRecurse [] (.obj [("nodeType", Json.null), ("nodeType", Json.str "Scan")])
           ⟨[], []⟩ = encRecurse [] (.obj [("nodeType", Json.str "Scan")]) ⟨[], []⟩
       ∧ encRecurse [] (.obj [("Node Type", Json.null), ("nodeType", Json.str "Scan")])
           ⟨[], []⟩ = encRecurse [] (.obj [("nodeType", Json.str "Scan")]) ⟨[], []⟩
       ∧ encRecurse [] (.obj [("plan_parameters", Json.null), ("nodeType", Json.str "Scan")])
           ⟨[], []⟩ = encRecurse [] (.obj [("nodeType", Json.str "Scan")]) ⟨[], []⟩) :=
  ⟨by decide,
   op_resolution_chain [] [("nodeType", Json.str "Scan")] Json.null ⟨[], []⟩ (by decide)⟩

def nodeC2 : List (String × Json) := [("nodeType", Json.str "Foo")]

def planC2 : Json := .obj [("0", .obj nodeC2)]

/-- C2 (counterexample): a node carrying only `nodeType: "Foo"` resolves to
`Foo` through the chain and in the vocabulary-building walk, yet under the
vocabulary `{Foo: 0}` the encoding walk counts nothing for it — so the
encoding walk does not resolve operators by the claimed chain. -/
theorem op_resolution_chain_cex :
    chainOp nodeC2 = some "Foo"
    ∧ vocabRecurse planC2 = {"Foo"}
    ∧ extract_flat_vector [("Foo", 0)] planC2 = [0, 0] := by
  refine ⟨by simp [nodeC2, chainOp, strVal, ppOpName, lookupField], ?_, ?_⟩
  · rw [planC2, vocabRecurse_wrapper (by decide)]
    simp only [List.map_cons, List.map_nil, unionList, List.foldr_cons, List.foldr_nil]
    rw [vocabRecurse_obj (by decide)]
    simp [nodeC2, chainOp, strVal, ppOpName, lookupField, vocabChildren, unionList,
      Json.arrElems]
  · simp [planC2, nodeC2, extract_flat_vector, fragRoots, encRecurseList, encRecurse,
      nodeContrib, childrenOf, lookupField, dictGet, dictGet.lookupPairs, Json.arrElems]

/-- C3 (amended): the vocabulary-building walk discovers children by
concatenating the engine-A `children` list, the engine-B `Plans` list and the
nested `plan` sub-object/array, and visits exactly those; the encoding walk
visits only the `children` list and ignores `Plans` and `plan` entirely. -/
theorem children_discovery (vocab : List (String × ℕ))
    (fields : List (String × Json)) (v : Json) (st : EncSt)
    (hw : isDigitKeyWrapper fields = false) :
    vocabRecurse (.obj fields) =
      (match chainOp fields with
       | some s => {s}
       | none => ∅) ∪ unionList ((vocabChildren fields).map vocabRecurse)
    ∧ encRecurse vocab (.obj fields) st =
        encRecurseList vocab (((lookupField fields "children").getD (.arr [])).arrElems)
          (nodeContrib vocab fields st)
    ∧ encRecurse vocab (.obj (("Plans", v) :: fields)) st =
        encRecurse vocab (.obj fields) st
    ∧ encRecurse vocab (.obj (("plan", v) :: fields)) st =
        encRecurse vocab (.obj fields) st := by
  refine ⟨vocabRecurse_obj hw, encRecurse_objEq vocab fields st, ?_, ?_⟩
  · exact encRecurse_ignores_field vocab _ v fields st
      (by decide) (by decide) (by decide) (by decide)
  · exact encRecurse_ignores_field vocab _ v fields st
      (by decide) (by decide) (by decide) (by decide)

theorem children_discovery_witness :
    isDigitKeyWrapper [("name", Json.str "Sort")] = false
    ∧ (vocabRecurse (.obj [("name", Json.str "Sort")]) =
        (match chainOp [("name", Json.str "Sort")] with
         | some s => {s}
         | none => ∅) ∪ unionList ((vocabChildren [("name", Json.str "Sort")]).map
           vocabRecurse)
       ∧ encRecurse [] (.obj [("name", Json.str "Sort")]) ⟨[], []⟩ =
           encRecurseList []
             (((lookupField [("name", Json.str "Sort")] "children").getD
               (.arr [])).arrElems)
             (nodeContrib [] [("name", Json.str "Sort")] ⟨[], []⟩)
       ∧ encRecurse [] (.obj [("Plans", Json.null), ("name", Json.str "Sort")])
           ⟨[], []⟩ = encRecurse [] (.obj [("name", Json.str "Sort")]) ⟨[], []⟩
       ∧ encRecurse [] (.obj [("plan", Json.null), ("name", Json.str "Sort")])
           ⟨[], []⟩ = encRecurse [] (.obj [("name", Json.str "Sort")]) ⟨[], []⟩) :=
  ⟨by decide,
   children_discovery [] [("name", Json.str "Sort")] Json.null ⟨[], []⟩ (by decide)⟩

def rootC3 : List (String × Json) :=
  [("name", Json.str "Output"),
   ("Plans", Json.arr [Json.obj [("name", Json.str "Filter")]])]

def planC3 : Json := .obj [("0", .obj rootC3)]

/-- C3 (counterexample): a root with one child in the engine-B `Plans` list —
the vocabulary-building walk visits the child (collecting both operators),
but under `{Output: 0, Filter: 1}` the encoding walk counts only the root:
the encoding walk does not visit the `Plans` (or nested `plan`) children the
claim ascribes to it. -/
theorem children_discovery_cex :
    vocabRecurse planC3 = {"Output", "Filter"}
    ∧ extract_flat_vector [("Output", 0), ("Filter", 1)] planC3 = [1, 0, 0, 0] := by
  constructor
  · have hf : vocabRecurse (Json.obj [("name", Json.str "Filter")]) = {"Filter"} := by
      rw [vocabRecurse_obj (by decide)]
      simp [chainOp, strVal, ppOpName, lookupField, vocabChildren, unionList, Json.arrElems]
    rw [planC3, vocabRecurse_wrapper (by decide)]
    simp only [List.map_cons, List.map_nil, unionList, List.foldr_cons, List.foldr_nil]
    rw [vocabRecurse_obj (by decide)]
    simp [rootC3, chainOp, strVal, ppOpName, lookupField, vocabChildren, unionList,
      Json.arrElems, hf]
    rfl
  · simp [planC3, rootC3, extract_flat_vector, fragRoots, encRecurseList, encRecurse,
      nodeContrib, childrenOf, lookupField, dictGet, dictGet.lookupPairs, Json.arrElems]
    norm_num [bump]

/- ----------------------------------------------------------------------
Dataset assembler: `build_multi_dataset_df` of `extract_feature_flat.py`
---------------------------------------------------------------------- -/

/-- One row of the Mode-A label table (`labels_csv`): the `filename` column
and the `wall_time_secs` column the source keeps. -/
structure LabelRow where
  filename : String
  wall_time_secs : ℚ

/-- `labels['filename'].str.replace(r'\.sql$', '', regex=True)`: strip one
trailing `.sql`. -/
def stripSql (s : String) : String :=
  if endsWithStr s ".sql" then String.mk (s.data.take (s.data.length - 4)) else s

/-- `fname.split('_', 1)[0]`: the file-name stem up to the first underscore
(the whole name when it has none). -/
def keyOf (s : String) : String := String.mk (s.data.takeWhile (fun c => c ≠ '_'))

/-- `labels.loc[labels['key'] == key, 'runtime'].values[0]` — the runtime of
the first label row whose derived key matches; `none` models the empty
selection, on which `.values[0]` raises `IndexError`. -/
def labelLookup (labels : List LabelRow) (key : String) : Option ℚ :=
  (labels.find? (fun row => stripSql row.filename = key)).map (fun row => row.wall_time_secs)

/-- One emitted Dataset Record: the feature vector plus the metadata the
source stores (`file` and `stmt_no` only exist in Mode B). -/
structure Record where
  vec : List ℚ
  runtime : ℚ
  dataset_id : String
  file : Option Json
  stmt_no : Option Json

/-- One observable step of the assembler loop: a record appended to
`feats_list`/`metas`, or an uncaught Python exception. -/
inductive Step where
  | emit (r : Record) : Step
  | fail (msg : String) : Step

def Step.isFail : Step → Bool
  | .fail _ => true
  | .emit _ => false

/-- One dataset-source descriptor. `planDir` models
`sorted(os.listdir(plan_dir))` together with each file's parsed content, and
is present exactly when the config carries the `plan_dir` key; likewise
`labelsCsv` for `labels_csv` and `resultFile` for the parsed `result_file`. -/
structure Cfg where
  name : String
  planDir : Option (List (String × Json))
  labelsCsv : Option (List LabelRow)
  resultFile : Option Json

/-- Mode A (`plan_dir` + `labels_csv`): every `.json` file is encoded and its
runtime looked up by derived key; an empty label selection raises
`IndexError`, aborting the loop. -/
def modeATrace (vocab : List (String × ℕ)) (name : String)
    (labels : List LabelRow) : List (String × Json) → List Step
  | [] => []
  | (fname, doc) :: rest =>
    if endsWithStr fname ".json" then
      match labelLookup labels (keyOf fname) with
      | none => [.fail "IndexError: index 0 is out of bounds"]
      | some rt =>
        .emit ⟨extract_flat_vector vocab doc, rt, name, none, none⟩ ::
          modeATrace vocab name labels rest
    else modeATrace vocab name labels rest

/-- One Mode-B query record: `q['plan']` raises `KeyError` when absent;
`float(q.get('runtime_ms', 0))` raises when the value is non-numeric; the
runtime is converted from milliseconds to seconds. -/
def modeBStep (vocab : List (String × ℕ)) (name : String) (q : Json) : Step :=
  match q.getField "plan" with
  | none => .fail "KeyError: plan"
  | some p =>
    match floatOfJson ((q.getField "runtime_ms").getD (.num 0)) with
    | none => .fail "ValueError: runtime_ms"
    | some rms =>
      .emit ⟨extract_flat_vector vocab p, rms / 1000, name,
        q.getField "file", q.getField "stmt_no"⟩

/-- A Python loop stops at the first uncaught exception. -/
def stepsUntilFail : List Step → List Step
  | [] => []
  | .fail m :: _ => [.fail m]
  | .emit r :: rest => .emit r :: stepsUntilFail rest

/-- Mode B (`result_file`): iterate `data.get('valid_queries', [])`. -/
def modeBTrace (vocab : List (String × ℕ)) (name : String) (data : Json) : List Step :=
  stepsUntilFail ((((data.getField "valid_queries").getD (.arr [])).arrElems).map
    (modeBStep vocab name))

/-- Dispatch on one config: Mode A when both `plan_dir` and `labels_csv` are
present, else Mode B when `result_file` is, else
`raise ValueError(f"Config for '{name}' must include plan_dir+labels_csv or result_file")`. -/
def cfgTrace (vocab : List (String × ℕ)) (cfg : Cfg) : List Step :=
  match cfg.planDir, cfg.labelsCsv with
  | some dir, some labels => modeATrace vocab cfg.name labels dir
  | _, _ =>
    match cfg.resultFile with
    | some data => modeBTrace vocab cfg.name data
    | none =>
      [.fail ("Config for '" ++ cfg.name ++ "' must include plan_dir+labels_csv or result_file")]

def hasFail (t : List Step) : Bool := t.any Step.isFail

/-- The assembler loop over the config list: configs are processed in order
and an uncaught exception in one aborts everything after it. -/
def buildTrace (vocab : List (String × ℕ)) : List Cfg → List Step
  | [] => []
  | c :: rest =>
    let t := cfgTrace vocab c
    if hasFail t then t else t ++ buildTrace vocab rest

def traceError : List Step → Option String
  | [] => none
  | .fail m :: _ => some m
  | .emit _ :: rest => traceError rest

def traceRecords : List Step → List Record
  | [] => []
  | .fail _ :: rest => traceRecords rest
  | .emit r :: rest => r :: traceRecords rest

/-- `build_multi_dataset_df(dataset_configs)`: an uncaught exception
propagates to the caller (`Except.error`); otherwise the collected records
form the table and rows with `runtime <= 0` are dropped
(`df = df[df['runtime'] > 0.0]`). -/
def build_multi_dataset_df (vocab : List (String × ℕ)) (cfgs : List Cfg) :
    Except String (List Record) :=
  let t := buildTrace vocab cfgs
  match traceError t with
  | some m => .error m
  | none => .ok ((traceRecords t).filter (fun r => decide (0 < r.runtime)))

theorem hasFail_traceError {t : List Step} (h : hasFail t = true) :
    ∃ m, traceError t = some m := by
  induction t with
  | nil => simp [hasFail] at h
  | cons s rest ih =>
    cases s with
    | fail m => exact ⟨m, rfl⟩
    | emit r =>
      simp only [hasFail, List.any_cons, Step.isFail, Bool.false_or] at h
      exact ih h

theorem traceError_append_nofail {t1 t2 : List Step} (h : hasFail t1 = false) :
    traceError (t1 ++ t2) = traceError t2 := by
  induction t1 with
  | nil => rfl
  | cons s rest ih =>
    cases s with
    | fail m => simp [hasFail, Step.isFail] at h
    | emit r =>
      simp only [hasFail, List.any_cons, Step.isFail, Bool.false_or] at h
      simp only [List.cons_append, traceError]
      exact ih h

theorem modeATrace_fail (vocab : List (String × ℕ)) (name : String)
    (labels : List LabelRow) (dir : List (String × Json)) (fname : String)
    (doc : Json) (hmem : (fname, doc) ∈ dir)
    (hjson : endsWithStr fname ".json" = true)
    (hmiss : labelLookup labels (keyOf fname) = none) :
    hasFail (modeATrace vocab name labels dir) = true := by
  induction dir with
  | nil => simp at hmem
  | cons fd rest ih =>
    obtain ⟨g, d⟩ := fd
    rw [modeATrace]
    by_cases hg : endsWithStr g ".json" = true
    · rw [if_pos hg]
      rcases hl : labelLookup labels (keyOf g) with _ | rt
      · simp [hasFail, Step.isFail]
      · rcases List.mem_cons.mp hmem with heq | hmem'
        · obtain ⟨hf, _⟩ := Prod.mk.injEq .. ▸ heq
          rw [hf] at hmiss
          rw [hmiss] at hl
          cases hl
        · simp only [hasFail, List.any_cons, Step.isFail, Bool.false_or]
          exact ih hmem'
    · rw [if_neg hg]
      rcases List.mem_cons.mp hmem with heq | hmem'
      · obtain ⟨hf, _⟩ := Prod.mk.injEq .. ▸ heq
        rw [hf] at hjson
        exact absurd hjson hg
      · exact ih hmem'

theorem modeATrace_emit_runtime (vocab : List (String × ℕ)) (name : String)
    (labels : List LabelRow) (dir : List (String × Json)) (r : Record)
    (h : Step.emit r ∈ modeATrace vocab name labels dir) :
    ∃ key, labelLookup labels key = some r.runtime := by
  induction dir with
  | nil => simp [modeATrace] at h
  | cons fd rest ih =>
    obtain ⟨g, d⟩ := fd
    rw [modeATrace] at h
    by_cases hg : endsWithStr g ".json" = true
    · rw [if_pos hg] at h
      rcases hl : labelLookup labels (keyOf g) with _ | rt
      · rw [hl] at h
        simp at h
      · rw [hl] at h
        rcases List.mem_cons.mp h with heq | h'
        · refine ⟨keyOf g, ?_⟩
          rw [hl]
          cases heq
          rfl
        · exact ih h'
    · rw [if_neg hg] at h
      exact ih h

/-- C6: in Mode A, a plan file whose derived key has no matching label row is
fatal — the assembler returns an error, never a table — and every record the
loop does emit carries a runtime obtained from a successful label lookup,
never a substituted default. -/
theorem modeA_label_miss_raises (vocab : List (String × ℕ)) (name : String)
    (labels : List LabelRow) (dir : List (String × Json)) (rf : Option Json)
    (fname : String) (doc : Json) (hmem : (fname, doc) ∈ dir)
    (hjson : endsWithStr fname ".json" = true)
    (hmiss : labelLookup labels (keyOf fname) = none) :
    (∃ msg, build_multi_dataset_df vocab [⟨name, some dir, some labels, rf⟩] = .error msg)
    ∧ ∀ r, Step.emit r ∈ cfgTrace vocab ⟨name, some dir, some labels, rf⟩ →
        ∃ key, labelLookup labels key = some r.runtime := by
  have htr : cfgTrace vocab ⟨name, some dir, some labels, rf⟩ =
      modeATrace vocab name labels dir := rfl
  have hfail : hasFail (cfgTrace vocab ⟨name, some dir, some labels, rf⟩) = true := by
    rw [htr]
    exact modeATrace_fail vocab name labels dir fname doc hmem hjson hmiss
  obtain ⟨m, hm⟩ := hasFail_traceError hfail
  constructor
  · refine ⟨m, ?_⟩
    have hb : buildTrace vocab [⟨name, some dir, some labels, rf⟩] =
        cfgTrace vocab ⟨name, some dir, some labels, rf⟩ := by
      rw [buildTrace]
      simp [hfail]
    simp only [build_multi_dataset_df, hb, hm]
  · intro r hr
    rw [htr] at hr
    exact modeATrace_emit_runtime vocab name labels dir r hr

def dirC6 : List (String × Json) := [("q1_plan.json", Json.obj [])]

def labelsC6 : List LabelRow := [⟨"q2.sql", 5⟩]

def cfgC6 : Cfg := ⟨"d1", some dirC6, some labelsC6, none⟩

theorem modeA_label_miss_raises_witness :
    ("q1_plan.json", Json.obj []) ∈ dirC6
    ∧ endsWithStr "q1_plan.json" ".json" = true
    ∧ labelLookup labelsC6 (keyOf "q1_plan.json") = none
    ∧ (∃ msg, build_multi_dataset_df [] [cfgC6] = .error msg)
    ∧ ∀ r, Step.emit r ∈ cfgTrace [] cfgC6 →
        ∃ key, labelLookup labelsC6 key = some r.runtime :=
  ⟨List.mem_singleton.mpr rfl, by decide, by decide,
   (modeA_label_miss_raises [] "d1" labelsC6 dirC6 none "q1_plan.json" (Json.obj [])
     (List.mem_singleton.mpr rfl) (by decide) (by decide)).1,
   (modeA_label_miss_raises [] "d1" labelsC6 dirC6 none "q1_plan.json" (Json.obj [])
     (List.mem_singleton.mpr rfl) (by decide) (by decide)).2⟩

/-- C7 (amended): a descriptor specifying neither ingestion mode is fatal —
the assembler raises and no table is ever returned — but the rejection
happens only when the malformed descriptor is reached in list order: sources
earlier in the list are processed first, and when they are fault-free their
records are emitted before the rejection (and then discarded by the raise). -/
theorem malformed_cfg_raises (vocab : List (String × ℕ)) (pre post : List Cfg)
    (bad : Cfg) (hbadA : (bad.planDir.isSome && bad.labelsCsv.isSome) = false)
    (hbadB : bad.resultFile = none) :
    (∃ msg, build_multi_dataset_df vocab (pre ++ bad :: post) = .error msg)
    ∧ ((∀ c ∈ pre, hasFail (cfgTrace vocab c) = false) →
        buildTrace vocab (pre ++ bad :: post) =
          (pre.map (cfgTrace vocab)).foldr (· ++ ·) [] ++
            [Step.fail ("Config for '" ++ bad.name ++
              "' must include plan_dir+labels_csv or result_file")]) := by
  have hbad : cfgTrace vocab bad =
      [Step.fail ("Config for '" ++ bad.name ++
        "' must include plan_dir+labels_csv or result_file")] := by
    unfold cfgTrace
    rcases hpd : bad.planDir with _ | dir <;> rcases hlc : bad.labelsCsv with _ | labels
    · rw [hbadB]
    · rw [hbadB]
    · rw [hbadB]
    · rw [hpd, hlc] at hbadA
      simp at hbadA
  constructor
  · have part1 : ∃ m, traceError (buildTrace vocab (pre ++ bad :: post)) = some m := by
      induction pre with
      | nil =>
        rw [List.nil_append, buildTrace]
        have hf : hasFail (cfgTrace vocab bad) = true := by
          rw [hbad]
          rfl
        rw [if_pos hf, hbad]
        exact ⟨_, rfl⟩
      | cons c cs ih =>
        rw [List.cons_append, buildTrace]
        by_cases hc : hasFail (cfgTrace vocab c) = true
        · rw [if_pos hc]
          exact hasFail_traceError hc
        · rw [if_neg hc]
          obtain ⟨m, hm⟩ := ih
          refine ⟨m, ?_⟩
          rw [traceError_append_nofail (by simpa using hc)]
          exact hm
    obtain ⟨m, hm⟩ := part1
    exact ⟨m, by simp only [build_multi_dataset_df, hm]⟩
  · intro hok
    induction pre with
    | nil =>
      rw [List.nil_append, buildTrace]
      have hf : hasFail (cfgTrace vocab bad) = true := by
        rw [hbad]
        rfl
      rw [if_pos hf, hbad]
      rfl
    | cons c cs ih =>
      rw [List.cons_append, buildTrace]
      have hc := hok c (List.mem_cons_self c cs)
      rw [if_neg (by simp [hc])]
      rw [ih (fun c' hc' => hok c' (List.mem_cons_of_mem c hc'))]
      simp [List.append_assoc]

def cfgBadC7 : Cfg := ⟨"b", none, none, none⟩

theorem malformed_cfg_raises_witness :
    ((cfgBadC7.planDir.isSome && cfgBadC7.labelsCsv.isSome) = false
     ∧ cfgBadC7.resultFile = none)
    ∧ ((∃ msg, build_multi_dataset_df [] ([] ++ cfgBadC7 :: []) = .error msg)
       ∧ ((∀ c ∈ ([] : List Cfg), hasFail (cfgTrace [] c) = false) →
           buildTrace [] ([] ++ cfgBadC7 :: []) =
             (([] : List Cfg).map (cfgTrace [])).foldr (· ++ ·) [] ++
               [Step.fail ("Config for '" ++ cfgBadC7.name ++
                 "' must include plan_dir+labels_csv or result_file")])) :=
  ⟨⟨by decide, rfl⟩, malformed_cfg_raises [] [] [] cfgBadC7 (by decide) rfl⟩

def bundleC7 : Json :=
  .obj [("valid_queries", .arr [.obj
    [("plan", .obj [("0", .obj [("name", .str "Output")])]),
     ("runtime_ms", .num 1500), ("file", .str "a.sql"), ("stmt_no", .num 1)]])]

def cfgGoodC7 : Cfg := ⟨"g", none, none, some bundleC7⟩

/-- C7 (counterexample): with a well-formed Mode-B source listed before the
malformed descriptor, the assembler's loop emits that source's record before
raising — the trace is an emit followed by the fatal failure — so the claim
that the malformed descriptor is rejected before any source in the list is
processed (no records built before the rejection) is false. -/
theorem malformed_cfg_raises_cex :
    (buildTrace [] [cfgGoodC7, cfgBadC7]).map Step.isFail = [false, true] := by
  simp [buildTrace, cfgTrace, cfgGoodC7, cfgBadC7, bundleC7, modeBTrace, modeBStep,
    Json.getField, lookupField, Json.arrElems, stepsUntilFail, hasFail, Step.isFail,
    floatOfJson]

/- ----------------------------------------------------------------------
Column reconciliation: `main` of `model/flat_vector.py`
---------------------------------------------------------------------- -/

/-- One assembled feature table as the reindex step sees it: named feature
columns and rows of numeric cells aligned with them. -/
structure DF where
  cols : List String
  rows : List (List ℚ)

/-- The position of a column label in a column list. -/
def colIdx : List String → String → Option ℕ
  | [], _ => none
  | c0 :: rest, key => if c0 = key then some 0 else (colIdx rest key).map (· + 1)

/-- A row's cell in a given column: the stored value when the frame has the
column, the fill value 0 otherwise. -/
def cellAt (cols : List String) (row : List ℚ) (c : String) : ℚ :=
  match colIdx cols c with
  | some i => row.getD i 0
  | none => 0

/-- `df.reindex(columns=newCols, fill_value=0)`: every row is rebuilt over
the new column list, keeping the values of columns the frame already has and
filling newly introduced columns with 0. -/
def reindexDF (df : DF) (newCols : List String) : DF :=
  ⟨newCols, df.rows.map (fun r => newCols.map (fun c => cellAt df.cols r c))⟩

/-- Insertion step of the sort pandas applies to a union of column labels. -/
def insertSorted (x : String) : List String → List String
  | [] => [x]
  | y :: ys => if x ≤ y then x :: y :: ys else y :: insertSorted x ys

/-- `X1.columns.union(X2.columns)`: pandas `Index.union` returns the sorted
union of the distinct labels, modelled as insertion sort over the
deduplicated concatenation. -/
def colUnion (l1 l2 : List String) : List String :=
  ((l1 ++ l2).dedup).foldr insertSorted []

/-- C9: with `a < b < c`, the union of columns `{a, b}` and `{b, c}` is
`{a, b, c}`, and reindexing each table to it zero-fills exactly the column
the table lacks while preserving its original values. -/
theorem union_reindex (a b c : String) (hab : a < b) (hbc : b < c)
    (rA rB : List (ℚ × ℚ)) :
    colUnion [a, b] [b, c] = [a, b, c]
    ∧ reindexDF ⟨[a, b], rA.map (fun p => [p.1, p.2])⟩ [a, b, c] =
        ⟨[a, b, c], rA.map (fun p => [p.1, p.2, 0])⟩
    ∧ reindexDF ⟨[b, c], rB.map (fun p => [p.1, p.2])⟩ [a, b, c] =
        ⟨[a, b, c], rB.map (fun p => [0, p.1, p.2])⟩ := by
  have hab' : a ≠ b := ne_of_lt hab
  have hbc' : b ≠ c := ne_of_lt hbc
  have hac' : a ≠ c := ne_of_lt (hab.trans hbc)
  refine ⟨?_, ?_, ?_⟩
  · have h2 : ([a, b, b, c] : List String).dedup = [a, b, c] := by
      rw [List.dedup_cons_of_not_mem (by simp [hab', hac']),
        List.dedup_cons_of_mem (by simp),
        List.dedup_cons_of_not_mem (by simp [hbc']),
        List.dedup_cons_of_not_mem (by simp),
        List.dedup_nil]
    unfold colUnion
    rw [show ([a, b] ++ [b, c] : List String) = [a, b, b, c] from rfl, h2]
    simp [insertSorted, hab.le, hbc.le]
  · simp only [reindexDF, DF.mk.injEq, true_and, List.map_map]
    refine List.map_congr_left ?_
    intro p _
    simp [cellAt, colIdx, hab', hbc', hac']
  · simp only [reindexDF, DF.mk.injEq, true_and, List.map_map]
    refine List.map_congr_left ?_
    intro p _
    simp [cellAt, colIdx, hab'.symm, hbc', hac'.symm]

theorem union_reindex_witness :
    (("a" : String) < "b" ∧ ("b" : String) < "c")
    ∧ (colUnion ["a", "b"] ["b", "c"] = ["a", "b", "c"]
       ∧ reindexDF ⟨["a", "b"], ([((1 : ℚ), (2 : ℚ))]).map (fun p => [p.1, p.2])⟩
           ["a", "b", "c"] =
           ⟨["a", "b", "c"], ([((1 : ℚ), (2 : ℚ))]).map (fun p => [p.1, p.2, 0])⟩
       ∧ reindexDF ⟨["b", "c"], ([((3 : ℚ), (4 : ℚ))]).map (fun p => [p.1, p.2])⟩
           ["a", "b", "c"] =
           ⟨["a", "b", "c"], ([((3 : ℚ), (4 : ℚ))]).map (fun p => [0, p.1, p.2])⟩) :=
  ⟨⟨by simp; decide, by simp; decide⟩,
   union_reindex "a" "b" "c" (by simp; decide) (by simp; decide) [(1, 2)] [(3, 4)]⟩

/-- A vocabulary built by `enumerate` over the sorted operator list always
maps into `[0, V)` — the in-range hypothesis of `okJ` holds for every
vocabulary the builder persists. -/
theorem opIdxDict_idx_lt (ops : Finset String) (s : String) (i : ℕ)
    (h : (s, i) ∈ opIdxDict ops) : i < (opIdxDict ops).length := by
  unfold opIdxDict at h ⊢
  rw [List.mem_map] at h
  obtain ⟨p, hp, he⟩ := h
  have h1 : p.1 = i := by
    have := congrArg Prod.snd he
    simpa using this
  rw [List.enum_eq_zip_range] at hp
  have h2 := (List.of_mem_zip hp).1
  rw [List.mem_range] at h2
  simp only [List.length_map, List.enum_length]
  omega
